import Mathlib

/-
Verification of the lattice-gpu simulator core (src/lattice-gpu/src/lib.rs).

The host orchestrator `DiscreteLatticeGPU` is embedded from lib.rs.  Machine
integers (u32) are modelled as Nat with an explicit `% 2 ^ 32` wherever the
source performs u32 arithmetic whose overflow is observable (release-build
wrapping semantics).  GPU buffers are total functions `Fin (W * H * D) → Nat`
(each entry one u32 site value); the staging round trip of a buffer is the
identity on its contents, and the asynchronous map outcome of the staging
channel is passed in as an explicit `Except` argument.  Host calls that panic
are modelled with `Option` (`none` = panic).

The two compute kernels live in shader.wgsl, which is referenced from lib.rs
via an include but is not part of the sources; the kernel definitions below
are therefore modelled from the specification (sections 4.D and 4.E: Pass 1
copy, Pass 2 transfer rules R1 to R4 with absorbing walls and an arbitrary
per-site direction permutation h).
-/

/-- The number of values of a u32 machine integer. -/
def U32 : Nat := 2 ^ 32

/-- The six transfer directions of the propagate kernel (spec section 4.E). -/
inductive Dir
  | xp | xn | yp | yn | zp | zn
deriving DecidableEq

/-- The canonical enumeration of the six directions. -/
def allDirs : List Dir := [Dir.xp, Dir.xn, Dir.yp, Dir.yn, Dir.zp, Dir.zn]

/-- A lattice site, addressed by coordinates `(x, y, z)` with `x < W`, `y < H`,
`z < D` (spec section 3). -/
abbrev Pos (W H D : Nat) := Fin W × Fin H × Fin D

/-- An energy field seen position-wise. -/
abbrev PField (W H D : Nat) := Pos W H D → Nat

/-- Modelled from the spec (section 4.E): the 6-connected neighbor of a site
in a given direction, `none` when out of bounds (absorbing walls, no wrap). -/
def neighborPos {W H D : Nat} (p : Pos W H D) : Dir → Option (Pos W H D)
  | Dir.xp =>
    if h : p.1.val + 1 < W then some (⟨p.1.val + 1, h⟩, p.2.1, p.2.2) else none
  | Dir.xn =>
    if _h : 0 < p.1.val then
      some (⟨p.1.val - 1, Nat.lt_of_le_of_lt (Nat.sub_le _ _) p.1.isLt⟩, p.2.1, p.2.2)
    else none
  | Dir.yp =>
    if h : p.2.1.val + 1 < H then some (p.1, ⟨p.2.1.val + 1, h⟩, p.2.2) else none
  | Dir.yn =>
    if _h : 0 < p.2.1.val then
      some (p.1, ⟨p.2.1.val - 1, Nat.lt_of_le_of_lt (Nat.sub_le _ _) p.2.1.isLt⟩, p.2.2)
    else none
  | Dir.zp =>
    if h : p.2.2.val + 1 < D then some (p.1, p.2.1, ⟨p.2.2.val + 1, h⟩) else none
  | Dir.zn =>
    if _h : 0 < p.2.2.val then
      some (p.1, p.2.1, ⟨p.2.2.val - 1, Nat.lt_of_le_of_lt (Nat.sub_le _ _) p.2.2.isLt⟩)
    else none

/-- Modelled from the spec (section 4.E, rules R1 to R4): the single neighbor a
site emits one quantum to, if any.  Eligible targets are the in-bounds
neighbors whose value is strictly below the site's own value (R2, absorbing
walls); the first eligible direction of the site's permutation `ord` wins the
single emission slot (R1, R3); the chosen target must hold a pre-step value
below the cap (R4). -/
def emitTarget {W H D : Nat} (f : PField W H D) (ord : List Dir) (p : Pos W H D) :
    Option (Pos W H D) :=
  match (ord.filterMap fun d =>
      match neighborPos p d with
      | some q => if f q < f p then some q else none
      | none => none).head? with
  | some q => if f q < 3 then some q else none
  | none => none

/-- Whether a site spends its emission slot this step (1 or 0 quanta out). -/
def emitsOut {W H D : Nat} (f : PField W H D) (ordAt : Pos W H D → List Dir)
    (p : Pos W H D) : Nat :=
  if (emitTarget f (ordAt p) p).isSome then 1 else 0

/-- The number of neighbors whose emission lands on `p` this step. -/
def receivedCount {W H D : Nat} (f : PField W H D) (ordAt : Pos W H D → List Dir)
    (p : Pos W H D) : Nat :=
  (Finset.univ.filter fun q => emitTarget f (ordAt q) q = some p).card

/-- Modelled from the spec (sections 4.D and 4.E): the combined effect of the
two kernel passes on a field.  Pass 1 writes every site's own value to the
output buffer; Pass 2 commits, per emitting site, an atomic subtract of 1 at
the site and an atomic add of 1 at its chosen target. -/
def pstep {W H D : Nat} (f : PField W H D) (ordAt : Pos W H D → List Dir) :
    PField W H D :=
  fun p => f p - emitsOut f ordAt p + receivedCount f ordAt p

/-- Linearization of a site: `idx = z * W * H + y * W + x` (spec section 3,
matching the index computation of lib.rs line 209). -/
def encodePos {W H D : Nat} (p : Pos W H D) : Fin (W * H * D) :=
  ⟨p.2.2.val * W * H + p.2.1.val * W + p.1.val, by
    obtain ⟨⟨x, hx⟩, ⟨y, hy⟩, ⟨z, hz⟩⟩ := p
    have h1 : y * W + x < H * W := by
      calc y * W + x < y * W + W := by omega
        _ = (y + 1) * W := by ring
        _ ≤ H * W := Nat.mul_le_mul_right _ hy
    calc z * W * H + y * W + x = z * W * H + (y * W + x) := by ring
      _ < z * W * H + H * W := Nat.add_lt_add_left h1 _
      _ = (z + 1) * (W * H) := by ring
      _ ≤ D * (W * H) := Nat.mul_le_mul_right _ hz
      _ = W * H * D := by ring⟩

/-- Inverse of the linearization: coordinates of a linear buffer index
(x fastest, z slowest, spec section 6). -/
def decodePos {W H D : Nat} (i : Fin (W * H * D)) : Pos W H D :=
  have hprod : 0 < W * H * D := Nat.lt_of_le_of_lt (Nat.zero_le _) i.isLt
  have hW : 0 < W := by
    rcases Nat.eq_zero_or_pos W with h | h
    · subst h; simp at hprod
    · exact h
  have hH : 0 < H := by
    rcases Nat.eq_zero_or_pos H with h | h
    · subst h; simp at hprod
    · exact h
  have hWH : 0 < W * H := Nat.mul_pos hW hH
  (⟨i.val % W, Nat.mod_lt _ hW⟩,
   ⟨(i.val / W) % H, Nat.mod_lt _ hH⟩,
   ⟨i.val / (W * H), by
      rw [Nat.div_lt_iff_lt_mul hWH]
      calc i.val < W * H * D := i.isLt
        _ = D * (W * H) := by ring⟩)

/-- A linear buffer read position-wise. -/
def toField {W H D : Nat} (buf : Fin (W * H * D) → Nat) : PField W H D :=
  fun p => buf (encodePos p)

/-- One whole propagation step (both kernel dispatches) on a linear buffer. -/
def kstep {W H D : Nat} (ordAt : Pos W H D → List Dir)
    (buf : Fin (W * H * D) → Nat) : Fin (W * H * D) → Nat :=
  fun i => pstep (toField buf) ordAt (decodePos i)

/-- The host-side simulator state of lib.rs: the two ping-pong energy buffers
and the step counter (a u32, kept below `U32` by the wrapping increment). -/
structure DiscreteLatticeGPU (W H D : Nat) where
  energy_buffer_a : Fin (W * H * D) → Nat
  energy_buffer_b : Fin (W * H * D) → Nat
  step_count : Nat

/-- Identity of one of the two ping-pong buffers. -/
inductive BufId
  | A | B
deriving DecidableEq

/-- The contents of a buffer named by identity. -/
def readBuf {W H D : Nat} (s : DiscreteLatticeGPU W H D) :
    BufId → (Fin (W * H * D) → Nat)
  | BufId.A => s.energy_buffer_a
  | BufId.B => s.energy_buffer_b

/-- Overwrite a buffer named by identity. -/
def writeBuf {W H D : Nat} (s : DiscreteLatticeGPU W H D) :
    BufId → (Fin (W * H * D) → Nat) → DiscreteLatticeGPU W H D
  | BufId.A, f => { s with energy_buffer_a := f }
  | BufId.B, f => { s with energy_buffer_b := f }

/-- The (input, output) buffer pair of a step, selected by step parity
(lib.rs lines 258-262). -/
def stepBuffers (step_count : Nat) : BufId × BufId :=
  if step_count % 2 = 0 then (BufId.A, BufId.B) else (BufId.B, BufId.A)

/-- The deterministic per-site direction permutation `h(x, y, z, step_count)`
of rule R3.  The shader's concrete hash is not in the sources; the spec lets
implementers use any deterministic hash, so the kernel model is parameterized
by it. -/
abbrev HashFn := Nat → Nat → Nat → Nat → List Dir

/-- `new(W, H, D)` (lib.rs lines 38-112) against a device with the given
single-buffer limit.  The code computes `total_sites = width * height * depth`
in u32 (wrapping, lib.rs line 71) and allocates buffers of
`total_sites * 4` bytes; the device layer rejects the allocation, fatally,
when the requested size exceeds its limit (the code itself performs no
dimension check, and it raises both wgpu limits to the adapter's values, so a
single limit models them).  A successful construction yields zero-initialized
buffers and a zero step counter. -/
structure DeviceLimits where
  maxStorageBufferBindingSize : Nat

/-- `initialize_vacuum` (lib.rs lines 200-206): zero-write both energy
buffers; the step counter is left intact. -/
def initialize_vacuum {W H D : Nat} (s : DiscreteLatticeGPU W H D) :
    DiscreteLatticeGPU W H D :=
  { s with energy_buffer_a := fun _ => 0, energy_buffer_b := fun _ => 0 }

/-- `add_energy_quantum` (lib.rs lines 208-244): compute
`idx = z * width * height + y * width + x` in u32 arithmetic, read buffer A
back through staging, set `energy_data[idx] = (energy_data[idx] + quanta)
.min(3)` (u32 addition), and write the array back to buffer A.  The indexing
panics (`none`) when `idx` is not below the array length `total_sites`, which
the code computes as the u32 product `width * height * depth` (lib.rs line
71), wrapping on overflow; there is no coordinate bounds check.  Note the
code always uses `energy_buffer_a`, whatever the step parity. -/
def add_energy_quantum {W H D : Nat} (s : DiscreteLatticeGPU W H D)
    (x y z quanta : Nat) : Option (DiscreteLatticeGPU W H D) :=
  let idx := (z * W * H + y * W + x) % U32
  if h : idx < (W * H * D) % U32 then
    some { s with
      energy_buffer_a := Function.update s.energy_buffer_a
        ⟨idx, lt_of_lt_of_le h (Nat.mod_le _ _)⟩
        (min ((s.energy_buffer_a ⟨idx, lt_of_lt_of_le h (Nat.mod_le _ _)⟩ + quanta) % U32) 3) }
  else none

/-- `propagate_energy` (lib.rs lines 246-316): pick the (input, output) pair
by parity of `step_count`, run Pass 1 then Pass 2 from input into output with
the per-site permutation seeded by the pre-step counter, and increment the
u32 step counter. -/
def propagate_energy {W H D : Nat} (h : HashFn) (s : DiscreteLatticeGPU W H D) :
    DiscreteLatticeGPU W H D :=
  let bufs := stepBuffers s.step_count
  let ordAt : Pos W H D → List Dir := fun p => h p.1.val p.2.1.val p.2.2.val s.step_count
  let out := kstep ordAt (readBuf s bufs.1)
  { writeBuf s bufs.2 out with step_count := (s.step_count + 1) % U32 }

/-- `get_energy_buffer` (lib.rs lines 318-325): a read-only handle to the
active buffer, A on even completed-step count, B on odd. -/
def get_energy_buffer {W H D : Nat} (s : DiscreteLatticeGPU W H D) : BufId :=
  if s.step_count % 2 = 0 then BufId.A else BufId.B

/-- The exact sum of all sites of the active buffer (the quantity
`get_total_energy` computes before u32 wrapping). -/
def totalEnergy {W H D : Nat} (s : DiscreteLatticeGPU W H D) : Nat :=
  ∑ i, (if s.step_count % 2 = 0 then s.energy_buffer_a else s.energy_buffer_b) i

/-- The staging-channel map outcome delivered to `map_async`'s callback. -/
inductive MapError
  | mappingFailed
deriving DecidableEq

/-- What a caller of `get_total_energy` can observe: a returned u32 sum, a
returned error value, or a crash of the call (a Rust panic).  The function's
Rust signature returns a bare u32, so `errorReturn` exists only to state the
spec's claimed behavior; the code never produces it. -/
inductive TotalResult
  | ok (total : Nat)
  | errorReturn (e : MapError)
  | crashed
deriving DecidableEq

/-- `get_total_energy` (lib.rs lines 327-360): copy the active buffer (A on
even step count, B on odd) to staging, wait for the map; on a map failure the
nested `unwrap` panics (`crashed`), otherwise the u32 sum of the mapped data
is returned. -/
def get_total_energy {W H D : Nat} (s : DiscreteLatticeGPU W H D)
    (mapResult : Except MapError Unit) : TotalResult :=
  match mapResult with
  | Except.error _ => TotalResult.crashed
  | Except.ok _ => TotalResult.ok (totalEnergy s % U32)

/-- A freshly constructed simulator: zero-initialized buffers (wgpu buffers
start zeroed, spec section 4.B), step counter 0 (lib.rs line 196). -/
def vacuumState (W H D : Nat) : DiscreteLatticeGPU W H D :=
  ⟨fun _ => 0, fun _ => 0, 0⟩

/-- `new(W, H, D)` against a device limit; see `DeviceLimits`. -/
def new (W H D : Nat) (lim : DeviceLimits) :
    Option (DiscreteLatticeGPU W H D) :=
  if ((W * H * D) % U32) * 4 > lim.maxStorageBufferBindingSize then none
  else some (vacuumState W H D)

/-- A hash that always yields the canonical direction order. -/
def hConst : HashFn := fun _ _ _ _ => allDirs

/-- The simulator after one propagation step from a fresh 2×2×2 lattice. -/
def c2State : DiscreteLatticeGPU 2 2 2 := propagate_energy hConst (vacuumState 2 2 2)

/-- A 2×2×2 simulator state with an odd completed-step count. -/
def c5State : DiscreteLatticeGPU 2 2 2 := ⟨fun _ => 0, fun _ => 0, 1⟩

/-- A 1×1×1 simulator whose single cell holds one quantum (reachable by
injecting 1 into a fresh lattice). -/
def c6State : DiscreteLatticeGPU 1 1 1 := ⟨fun _ => 1, fun _ => 0, 0⟩

/-- A 3×3×1 field holding 1 at the four 6-neighbors of the center site
(linear indices 1, 3, 5, 7) and 0 elsewhere. -/
def capState : DiscreteLatticeGPU 3 3 1 :=
  ⟨fun i => if i.val = 1 ∨ i.val = 3 ∨ i.val = 5 ∨ i.val = 7 then 1 else 0,
   fun _ => 0, 0⟩

/-- A deterministic per-site permutation of the six axes under which, on the
`capState` field, each of the four occupied sites emits toward the center. -/
def hRoute : HashFn := fun x y _ _ =>
  if x = 1 ∧ y = 0 then [Dir.yp, Dir.yn, Dir.xp, Dir.xn, Dir.zp, Dir.zn]
  else if x = 1 ∧ y = 2 then [Dir.yn, Dir.yp, Dir.xp, Dir.xn, Dir.zp, Dir.zn]
  else if x = 2 ∧ y = 1 then [Dir.xn, Dir.xp, Dir.yp, Dir.yn, Dir.zp, Dir.zn]
  else allDirs

/-- Every element delivered by `head?` is a member of the list. -/
theorem head?_eq_some_mem {α : Type} {l : List α} {a : α}
    (h : l.head? = some a) : a ∈ l := by
  cases l with
  | nil => simp at h
  | cons b t =>
    simp only [List.head?] at h
    injection h with h
    exact h ▸ List.mem_cons_self _ _

/-- A committed emission goes to an in-bounds neighbor of strictly lower
value (rules R2 and R3). -/
theorem emitTarget_spec {W H D : Nat} {f : PField W H D} {ord : List Dir}
    {p q : Pos W H D} (h : emitTarget f ord p = some q) :
    (∃ d, neighborPos p d = some q) ∧ f q < f p := by
  unfold emitTarget at h
  rcases hhead : (ord.filterMap fun d =>
      match neighborPos p d with
      | some q => if f q < f p then some q else none
      | none => none).head? with _ | r
  · rw [hhead] at h
    simp at h
  · rw [hhead] at h
    change (if f r < 3 then some r else none) = some q at h
    have hr : r = q := by
      by_cases h3 : f r < 3
      · rw [if_pos h3] at h
        injection h
      · rw [if_neg h3] at h
        simp at h
    subst hr
    have hmem := head?_eq_some_mem hhead
    rcases List.mem_filterMap.mp hmem with ⟨d, _, hd⟩
    rcases hnb : neighborPos p d with _ | q2
    · rw [hnb] at hd
      simp at hd
    · rw [hnb] at hd
      change (if f q2 < f p then some q2 else none) = some r at hd
      by_cases hlt : f q2 < f p
      · rw [if_pos hlt] at hd
        injection hd with hd
        subst hd
        exact ⟨⟨d, hnb⟩, hlt⟩
      · rw [if_neg hlt] at hd
        simp at hd

/-- A site that spends its emission slot holds at least one quantum. -/
theorem emitsOut_le {W H D : Nat} (f : PField W H D)
    (ordAt : Pos W H D → List Dir) (p : Pos W H D) :
    emitsOut f ordAt p ≤ f p := by
  unfold emitsOut
  rcases h : emitTarget f (ordAt p) p with _ | q
  · simp
  · simp only [Option.isSome, if_pos]
    have := (emitTarget_spec h).2
    omega

/-- Double counting: the quanta received over the grid equal the quanta
emitted over the grid (each emission has exactly one in-bounds target). -/
theorem sum_receivedCount {W H D : Nat} (f : PField W H D)
    (ordAt : Pos W H D → List Dir) :
    ∑ p, receivedCount f ordAt p = ∑ p, emitsOut f ordAt p := by
  unfold receivedCount
  have h1 : ∀ p : Pos W H D,
      (Finset.univ.filter fun q => emitTarget f (ordAt q) q = some p).card
        = ∑ q, if emitTarget f (ordAt q) q = some p then 1 else 0 := by
    intro p
    exact Finset.card_filter _ _
  rw [Finset.sum_congr rfl fun p _ => h1 p, Finset.sum_comm]
  refine Finset.sum_congr rfl fun q _ => ?_
  rcases hq : emitTarget f (ordAt q) q with _ | r
  · simp [emitsOut, hq]
  · rw [Finset.sum_eq_single r]
    · simp [emitsOut, hq]
    · intro b _ hb
      simp [Option.some_inj, fun h : r = b => hb (h ▸ rfl)]
      intro h
      exact absurd h.symm hb
    · intro hr
      exact absurd (Finset.mem_univ r) hr

/-- Modelled-kernel conservation: one whole propagation step preserves the
total of the field. -/
theorem pstep_sum {W H D : Nat} (f : PField W H D)
    (ordAt : Pos W H D → List Dir) :
    ∑ p, pstep f ordAt p = ∑ p, f p := by
  have hpt : ∀ p : Pos W H D,
      pstep f ordAt p + emitsOut f ordAt p = f p + receivedCount f ordAt p := by
    intro p
    have := emitsOut_le f ordAt p
    unfold pstep
    omega
  have hsum : ∑ p, (pstep f ordAt p + emitsOut f ordAt p)
      = ∑ p, (f p + receivedCount f ordAt p) :=
    Finset.sum_congr rfl fun p _ => hpt p
  rw [Finset.sum_add_distrib, Finset.sum_add_distrib, sum_receivedCount] at hsum
  omega

/-- Decoding a linearized site recovers its coordinates. -/
theorem decode_encode {W H D : Nat} (p : Pos W H D) :
    decodePos (encodePos p) = p := by
  obtain ⟨⟨x, hx⟩, ⟨y, hy⟩, ⟨z, hz⟩⟩ := p
  have hW : 0 < W := Nat.lt_of_le_of_lt (Nat.zero_le _) hx
  have hsplit : z * W * H + y * W + x = x + (y + z * H) * W := by ring
  have hsmall : x + y * W < W * H := by
    calc x + y * W < W + y * W := by omega
      _ = (y + 1) * W := by ring
      _ ≤ H * W := Nat.mul_le_mul_right _ hy
      _ = W * H := by ring
  refine Prod.ext (Fin.ext ?_) (Prod.ext (Fin.ext ?_) (Fin.ext ?_))
  · show (z * W * H + y * W + x) % W = x
    rw [hsplit, Nat.add_mul_mod_self_right, Nat.mod_eq_of_lt hx]
  · show ((z * W * H + y * W + x) / W) % H = y
    rw [hsplit, Nat.add_mul_div_right _ _ hW, Nat.div_eq_of_lt hx, Nat.zero_add,
      Nat.add_mul_mod_self_right, Nat.mod_eq_of_lt hy]
  · show (z * W * H + y * W + x) / (W * H) = z
    rw [show z * W * H + y * W + x = (x + y * W) + z * (W * H) from by ring,
      Nat.add_mul_div_right _ _ (Nat.lt_of_le_of_lt (Nat.zero_le _) hsmall),
      Nat.div_eq_of_lt hsmall, Nat.zero_add]

/-- Linearizing decoded coordinates recovers the index. -/
theorem encode_decode {W H D : Nat} (i : Fin (W * H * D)) :
    encodePos (decodePos i) = i := by
  apply Fin.ext
  show (i.val / (W * H)) * W * H + ((i.val / W) % H) * W + i.val % W = i.val
  rw [← Nat.div_div_eq_div_mul]
  have h1 := Nat.div_add_mod i.val W
  have h2 := Nat.div_add_mod (i.val / W) H
  conv_rhs => rw [← h1, ← h2]
  ring

/-- The linearization is a bijection between sites and buffer indices. -/
theorem encodePos_bijective {W H D : Nat} :
    Function.Bijective (encodePos (W := W) (H := H) (D := D)) :=
  Function.bijective_iff_has_inverse.mpr
    ⟨decodePos, decode_encode, encode_decode⟩

/-- The decoding is a bijection between buffer indices and sites. -/
theorem decodePos_bijective {W H D : Nat} :
    Function.Bijective (decodePos (W := W) (H := H) (D := D)) :=
  Function.bijective_iff_has_inverse.mpr
    ⟨encodePos, encode_decode, decode_encode⟩

/-- The position-wise view of a buffer has the same total. -/
theorem sum_toField {W H D : Nat} (buf : Fin (W * H * D) → Nat) :
    ∑ p, toField buf p = ∑ i, buf i :=
  Fintype.sum_bijective encodePos encodePos_bijective _ _ fun _ => rfl

/-- Buffer-level conservation: a whole propagation step preserves the sum of
the output buffer relative to the input buffer. -/
theorem kstep_sum {W H D : Nat} (ordAt : Pos W H D → List Dir)
    (buf : Fin (W * H * D) → Nat) :
    ∑ i, kstep ordAt buf i = ∑ i, buf i := by
  calc ∑ i, kstep ordAt buf i
      = ∑ p, pstep (toField buf) ordAt p :=
        Fintype.sum_bijective decodePos decodePos_bijective _ _ fun _ => rfl
    _ = ∑ p, toField buf p := pstep_sum _ _
    _ = ∑ i, buf i := sum_toField buf

/-- The u32-wrapped step counter has the parity of the exact counter. -/
theorem mod_U32_parity (n : Nat) : n % U32 % 2 = n % 2 :=
  Nat.mod_mod_of_dvd n ⟨2 ^ 31, by norm_num [U32]⟩

/-- One `propagate_energy` call preserves the exact total energy of the
active buffer. -/
theorem totalEnergy_propagate {W H D : Nat} (h : HashFn)
    (s : DiscreteLatticeGPU W H D) :
    totalEnergy (propagate_energy h s) = totalEnergy s := by
  by_cases hpar : s.step_count % 2 = 0
  · have hodd : (s.step_count + 1) % U32 % 2 = 1 := by
      rw [mod_U32_parity]
      omega
    simp only [totalEnergy, propagate_energy, stepBuffers, if_pos hpar, writeBuf,
      readBuf, hodd, one_ne_zero, if_false, if_neg]
    exact kstep_sum _ _
  · have heven : (s.step_count + 1) % U32 % 2 = 0 := by
      rw [mod_U32_parity]
      omega
    simp only [totalEnergy, propagate_energy, stepBuffers, if_neg hpar, writeBuf,
      readBuf, heven, if_true, if_pos]
    exact kstep_sum _ _

/-- Every direction is listed in `allDirs`. -/
theorem mem_allDirs (d : Dir) : d ∈ allDirs := by
  cases d <;> simp [allDirs]

/-- Adjacency is symmetric: the neighbor relation runs both ways (each
direction has its opposite). -/
theorem neighborPos_symm {W H D : Nat} {p q : Pos W H D} {d : Dir}
    (h : neighborPos p d = some q) : ∃ d2, neighborPos q d2 = some p := by
  cases d
  case xp =>
    simp only [neighborPos] at h
    split at h
    · injection h with h
      subst h
      refine ⟨Dir.xn, ?_⟩
      simp only [neighborPos, Nat.succ_sub_one]
      rw [dif_pos (Nat.succ_pos _)]
    · simp at h
  case xn =>
    simp only [neighborPos] at h
    split at h
    next hpos =>
      injection h with h
      subst h
      refine ⟨Dir.xp, ?_⟩
      simp only [neighborPos]
      rw [dif_pos (by omega : p.1.val - 1 + 1 < W)]
      simp only [Option.some.injEq]
      refine Prod.ext (Fin.ext ?_) rfl
      show p.1.val - 1 + 1 = p.1.val
      omega
    · simp at h
  case yp =>
    simp only [neighborPos] at h
    split at h
    · injection h with h
      subst h
      refine ⟨Dir.yn, ?_⟩
      simp only [neighborPos, Nat.succ_sub_one]
      rw [dif_pos (Nat.succ_pos _)]
    · simp at h
  case yn =>
    simp only [neighborPos] at h
    split at h
    next hpos =>
      injection h with h
      subst h
      refine ⟨Dir.yp, ?_⟩
      simp only [neighborPos]
      rw [dif_pos (by omega : p.2.1.val - 1 + 1 < H)]
      simp only [Option.some.injEq]
      refine Prod.ext rfl (Prod.ext (Fin.ext ?_) rfl)
      show p.2.1.val - 1 + 1 = p.2.1.val
      omega
    · simp at h
  case zp =>
    simp only [neighborPos] at h
    split at h
    · injection h with h
      subst h
      refine ⟨Dir.zn, ?_⟩
      simp only [neighborPos, Nat.succ_sub_one]
      rw [dif_pos (Nat.succ_pos _)]
    · simp at h
  case zn =>
    simp only [neighborPos] at h
    split at h
    next hpos =>
      injection h with h
      subst h
      refine ⟨Dir.zp, ?_⟩
      simp only [neighborPos]
      rw [dif_pos (by omega : p.2.2.val - 1 + 1 < D)]
      simp only [Option.some.injEq]
      refine Prod.ext rfl (Prod.ext rfl (Fin.ext ?_))
      show p.2.2.val - 1 + 1 = p.2.2.val
      omega
    · simp at h

/-- A site receives at most one quantum per neighbor, hence at most 6 per
step (rule R1 bounds each emitter to one quantum; only neighbors can target
the site). -/
theorem receivedCount_le_six {W H D : Nat} (f : PField W H D)
    (ordAt : Pos W H D → List Dir) (p : Pos W H D) :
    receivedCount f ordAt p ≤ 6 := by
  have hsub : (Finset.univ.filter fun q => emitTarget f (ordAt q) q = some p)
      ⊆ (allDirs.filterMap (neighborPos p)).toFinset := by
    intro q hq
    have hq2 := (Finset.mem_filter.mp hq).2
    rcases (emitTarget_spec hq2).1 with ⟨d, hd⟩
    rcases neighborPos_symm hd with ⟨d2, hd2⟩
    rw [List.mem_toFinset, List.mem_filterMap]
    exact ⟨d2, mem_allDirs d2, hd2⟩
  calc receivedCount f ordAt p
      ≤ (allDirs.filterMap (neighborPos p)).toFinset.card :=
        Finset.card_le_card hsub
    _ ≤ (allDirs.filterMap (neighborPos p)).length := List.toFinset_card_le _
    _ ≤ allDirs.length := List.length_filterMap_le _ _
    _ = 6 := rfl

/-- `hRoute` is a genuine uniform permutation of the six axes at every site
and step, as rule R3 demands of the hash. -/
theorem hRoute_perm (x y z s : Nat) : (hRoute x y z s).Perm allDirs := by
  unfold hRoute
  split
  · decide
  · split
    · decide
    · split
      · decide
      · decide

/-- `add_energy_quantum` on an index inside the (u32-length) buffer: the
whole-array read-modify-write amounts to a single saturating update of
buffer A. -/
theorem add_energy_quantum_eq_some {W H D : Nat} (s : DiscreteLatticeGPU W H D)
    (x y z q : Nat) (hidx : (z * W * H + y * W + x) % U32 < (W * H * D) % U32) :
    add_energy_quantum s x y z q = some { s with
      energy_buffer_a := Function.update s.energy_buffer_a
        ⟨(z * W * H + y * W + x) % U32, lt_of_lt_of_le hidx (Nat.mod_le _ _)⟩
        (min ((s.energy_buffer_a
          ⟨(z * W * H + y * W + x) % U32, lt_of_lt_of_le hidx (Nat.mod_le _ _)⟩ + q) % U32) 3) } := by
  simp only [add_energy_quantum]
  rw [dif_pos hidx]

/-- `add_energy_quantum` on an index at or beyond the u32 buffer length
panics. -/
theorem add_energy_quantum_eq_none {W H D : Nat} (s : DiscreteLatticeGPU W H D)
    (x y z q : Nat) (hidx : ¬ (z * W * H + y * W + x) % U32 < (W * H * D) % U32) :
    add_energy_quantum s x y z q = none := by
  simp only [add_energy_quantum]
  rw [dif_neg hidx]

/-- C1: for every initial field and every k, the total of all site values
after k consecutive `propagate_energy` calls (no injection or reset between
them) equals the total before the first call: propagation conserves energy. -/
theorem C1_propagation_conserves_total_energy (W H D : Nat) (h : HashFn)
    (s : DiscreteLatticeGPU W H D) (k : Nat) :
    totalEnergy ((propagate_energy h)^[k] s) = totalEnergy s := by
  induction k with
  | zero => rfl
  | succ n ih => rw [Function.iterate_succ_apply', totalEnergy_propagate, ih]

/-- C2: code-bug evaluation at the failing input.  After one completed step
the active buffer is B, yet `add_energy_quantum` reads and writes buffer A:
the injected quantum lands in buffer A while `get_total_energy` still reads
0 from buffer B, so the injection is invisible to the readback. -/
theorem C2_active_buffer_slip_eval :
    c2State.step_count = 1 ∧ get_energy_buffer c2State = BufId.B ∧
    (add_energy_quantum c2State 0 0 0 1).map
      (fun s2 => (s2.energy_buffer_a 0, totalEnergy s2)) = some (1, 0) ∧
    totalEnergy c2State = 0 := by decide

/-- C3 counterexample: the claimed cap `e ≤ 3` fails under the spec's own
transfer rules.  On a 3×3×1 lattice whose field satisfies the cap (four sites
hold 1, the rest 0), one propagation step with the valid direction
permutation `hRoute` routes all four emissions into the center site (linear
index 4), whose observable post-step value in the active buffer B is 4. -/
theorem C3_cap_counterexample :
    ((List.finRange (3 * 3 * 1)).all fun i =>
      decide (capState.energy_buffer_a i ≤ 3)) = true ∧
    get_energy_buffer (propagate_energy hRoute capState) = BufId.B ∧
    3 < (propagate_energy hRoute capState).energy_buffer_b 4 := by decide

/-- C3 amended: injection never lifts a site above 3 (and touches only
buffer A), while a propagation step can lift a site above 3; what propagation
guarantees per step is that a site gains at most 6 (one quantum from each of
at most six neighbors, rule R1), so the post-step value is bounded by the
pre-step value plus 6, not by 3. -/
theorem C3_cap_amended :
    (∀ (W H D : Nat) (f : PField W H D) (ordAt : Pos W H D → List Dir)
      (p : Pos W H D), pstep f ordAt p ≤ f p + 6) ∧
    (∀ (W H D : Nat) (s : DiscreteLatticeGPU W H D) (x y z q : Nat)
      (i : Fin (W * H * D)),
      ((add_energy_quantum s x y z q).getD s).energy_buffer_a i
        ≤ max (s.energy_buffer_a i) 3 ∧
      ((add_energy_quantum s x y z q).getD s).energy_buffer_b i
        = s.energy_buffer_b i) := by
  constructor
  · intro W H D f ordAt p
    have h1 := receivedCount_le_six f ordAt p
    have h2 := emitsOut_le f ordAt p
    unfold pstep
    omega
  · intro W H D s x y z q i
    by_cases hidx : (z * W * H + y * W + x) % U32 < (W * H * D) % U32
    · rw [add_energy_quantum_eq_some s x y z q hidx]
      simp only [Option.getD_some]
      constructor
      · by_cases hi : i = ⟨(z * W * H + y * W + x) % U32,
          lt_of_lt_of_le hidx (Nat.mod_le _ _)⟩
        · subst hi
          rw [Function.update_same]
          exact le_trans (min_le_right _ _) (le_max_right _ _)
        · rw [Function.update_noteq hi]
          exact le_max_left _ _
      · trivial
    · rw [add_energy_quantum_eq_none s x y z q hidx]
      exact ⟨le_max_left _ _, rfl⟩

/-- C4 counterexample: the out-of-bounds injection `(x, y, z) = (2, 0, 0)` on
a 2×2×2 lattice (so `x ≥ W`) is not rejected: its linear index 2 is inside
the buffer, so the call succeeds and silently writes the in-bounds site
(0, 1, 0) (linear index 2). -/
theorem C4_oob_injection_counterexample :
    2 ≤ 2 ∧
    (add_energy_quantum (vacuumState 2 2 2) 2 0 0 3).map
      (fun s2 => s2.energy_buffer_a 2) = some 3 := by decide

/-- C4 amended: `add_energy_quantum` performs no coordinate bounds check.  It
fails (indexing panic) exactly when the u32-computed linear index
`z·W·H + y·W + x` is at or beyond the array length `total_sites`, itself the
u32-wrapped product `W·H·D mod 2^32` (lib.rs line 71), and otherwise
saturates the site at that linear index, even when `(x, y, z)` is out of
bounds. -/
theorem C4_oob_injection_amended (W H D : Nat) (s : DiscreteLatticeGPU W H D)
    (x y z q : Nat) :
    (add_energy_quantum s x y z q = none ↔
      (W * H * D) % U32 ≤ (z * W * H + y * W + x) % U32) ∧
    ∀ (hidx : (z * W * H + y * W + x) % U32 < (W * H * D) % U32),
      add_energy_quantum s x y z q = some { s with
        energy_buffer_a := Function.update s.energy_buffer_a
          ⟨(z * W * H + y * W + x) % U32, lt_of_lt_of_le hidx (Nat.mod_le _ _)⟩
          (min ((s.energy_buffer_a
            ⟨(z * W * H + y * W + x) % U32, lt_of_lt_of_le hidx (Nat.mod_le _ _)⟩ + q) % U32) 3) } := by
  constructor
  · constructor
    · intro h0
      by_contra hlt
      rw [add_energy_quantum_eq_some s x y z q (by omega)] at h0
      simp at h0
    · intro hge
      exact add_energy_quantum_eq_none s x y z q (by omega)
  · intro hidx
    exact add_energy_quantum_eq_some s x y z q hidx

/-- C4 amended, witness at the counterexample input: the out-of-bounds
injection writes the in-bounds site at linear index 2. -/
theorem C4_oob_injection_amended_witness :
    add_energy_quantum (vacuumState 2 2 2) 2 0 0 3 = some { vacuumState 2 2 2 with
      energy_buffer_a := Function.update (vacuumState 2 2 2).energy_buffer_a
        ⟨(0 * 2 * 2 + 0 * 2 + 2) % U32, by decide⟩
        (min (((vacuumState 2 2 2).energy_buffer_a
          ⟨(0 * 2 * 2 + 0 * 2 + 2) % U32, by decide⟩ + 3) % U32) 3) } :=
  (C4_oob_injection_amended 2 2 2 (vacuumState 2 2 2) 2 0 0 3).2 (by decide)

/-- C5: in a state with an odd completed-step count, an injection followed by
a readback returns the pre-injection total: `add_energy_quantum` writes only
buffer A while the active buffer read by `get_total_energy` is B, which the
injection leaves untouched. -/
theorem C5_odd_step_injection_invisible (W H D : Nat)
    (s : DiscreteLatticeGPU W H D) (x y z q : Nat)
    (hodd : s.step_count % 2 = 1) :
    get_energy_buffer s = BufId.B ∧
    ((add_energy_quantum s x y z q).getD s).energy_buffer_b
      = s.energy_buffer_b ∧
    ((add_energy_quantum s x y z q).getD s).step_count = s.step_count ∧
    get_total_energy ((add_energy_quantum s x y z q).getD s) (Except.ok ())
      = get_total_energy s (Except.ok ()) := by
  have hne : ¬ s.step_count % 2 = 0 := by omega
  refine ⟨by simp [get_energy_buffer, hne], ?_⟩
  by_cases hidx : (z * W * H + y * W + x) % U32 < (W * H * D) % U32
  · rw [add_energy_quantum_eq_some s x y z q hidx]
    simp only [Option.getD_some]
    exact ⟨trivial, trivial, by simp [get_total_energy, totalEnergy, hne]⟩
  · rw [add_energy_quantum_eq_none s x y z q hidx]
    exact ⟨rfl, rfl, rfl⟩

/-- C5 witness: concrete odd-step state. -/
theorem C5_odd_step_injection_invisible_witness :
    get_energy_buffer c5State = BufId.B ∧
    ((add_energy_quantum c5State 0 0 0 2).getD c5State).energy_buffer_b
      = c5State.energy_buffer_b ∧
    ((add_energy_quantum c5State 0 0 0 2).getD c5State).step_count
      = c5State.step_count ∧
    get_total_energy ((add_energy_quantum c5State 0 0 0 2).getD c5State)
      (Except.ok ()) = get_total_energy c5State (Except.ok ()) :=
  C5_odd_step_injection_invisible 2 2 2 c5State 0 0 0 2 rfl

/-- C6 counterexample: the claimed formula `min(cell + q, 3)` fails for large
quanta counts because the source's addition is a u32 add (lib.rs line 239)
that wraps in release builds: a cell holding 1, injected with
`q = 2^32 - 1`, should end at `min(1 + (2^32 - 1), 3) = 3` by the claim, but
the sum wraps to 0 and the cell ends at 0 — even the cell's own quantum is
lost, so the excess is not merely discarded. -/
theorem C6_wrap_counterexample :
    min (1 + (2 ^ 32 - 1)) 3 = 3 ∧
    (add_energy_quantum c6State 0 0 0 (2 ^ 32 - 1)).map
      (fun s2 => s2.energy_buffer_a 0) = some 0 := by decide

set_option maxRecDepth 4000 in
/-- C6 amended: for every in-bounds site, `add_energy_quantum` sets the
site's value to `min((cell + q) mod 2^32, 3)` — the u32 sum wraps — leaving
all other sites and buffer B untouched, so the post-injection value never
exceeds 3; whenever `cell + q` does not overflow u32 (in particular for
every reachable cell value and every `q ≤ 2^32 - 4`) this is exactly the
claimed `min(cell + q, 3)`; and injecting 10 quanta at a vacuum cell yields
cell value 3 and total energy 3. -/
theorem C6_saturating_injection :
    (∀ (W H D : Nat) (s : DiscreteLatticeGPU W H D) (x y z q : Nat)
      (hx : x < W) (hy : y < H) (hz : z < D), W * H * D < U32 →
      ∃ s2, add_energy_quantum s x y z q = some s2 ∧
        s2.energy_buffer_a (encodePos (⟨x, hx⟩, ⟨y, hy⟩, ⟨z, hz⟩)) =
          min ((s.energy_buffer_a (encodePos (⟨x, hx⟩, ⟨y, hy⟩, ⟨z, hz⟩)) + q) % U32) 3 ∧
        (s.energy_buffer_a (encodePos (⟨x, hx⟩, ⟨y, hy⟩, ⟨z, hz⟩)) + q < U32 →
          s2.energy_buffer_a (encodePos (⟨x, hx⟩, ⟨y, hy⟩, ⟨z, hz⟩)) =
            min (s.energy_buffer_a (encodePos (⟨x, hx⟩, ⟨y, hy⟩, ⟨z, hz⟩)) + q) 3) ∧
        s2.energy_buffer_a (encodePos (⟨x, hx⟩, ⟨y, hy⟩, ⟨z, hz⟩)) ≤ 3 ∧
        (∀ i, i ≠ encodePos (⟨x, hx⟩, ⟨y, hy⟩, ⟨z, hz⟩) →
          s2.energy_buffer_a i = s.energy_buffer_a i) ∧
        s2.energy_buffer_b = s.energy_buffer_b ∧ s2.step_count = s.step_count) ∧
    (add_energy_quantum (vacuumState 6 6 6) 5 5 5 10).map
      (fun s2 => (s2.energy_buffer_a (encodePos ((5 : Fin 6), (5 : Fin 6), (5 : Fin 6))),
        totalEnergy s2)) = some (3, 3) := by
  constructor
  · intro W H D s x y z q hx hy hz hU
    have hraw : z * W * H + y * W + x < W * H * D :=
      (encodePos ((⟨x, hx⟩ : Fin W), (⟨y, hy⟩ : Fin H), (⟨z, hz⟩ : Fin D))).isLt
    have hmod : (z * W * H + y * W + x) % U32 = z * W * H + y * W + x :=
      Nat.mod_eq_of_lt (lt_trans hraw hU)
    have hlen : (W * H * D) % U32 = W * H * D := Nat.mod_eq_of_lt hU
    have hidx : (z * W * H + y * W + x) % U32 < (W * H * D) % U32 := by omega
    have hfin : (⟨(z * W * H + y * W + x) % U32,
        lt_of_lt_of_le hidx (Nat.mod_le _ _)⟩ : Fin (W * H * D))
        = encodePos (⟨x, hx⟩, ⟨y, hy⟩, ⟨z, hz⟩) := Fin.ext hmod
    have hsome := add_energy_quantum_eq_some s x y z q hidx
    rw [hfin] at hsome
    refine ⟨_, hsome, ?_, ?_, ?_, ?_, rfl, rfl⟩
    · exact Function.update_same _ _ _
    · intro hnov
      exact (Function.update_same _ _ _).trans (by rw [Nat.mod_eq_of_lt hnov])
    · exact le_trans (le_of_eq (Function.update_same _ _ _)) (min_le_right _ _)
    · intro i hi
      exact Function.update_noteq hi _ _
  · decide

/-- C6 witness: a concrete saturating injection, 10 quanta into the vacuum
cell (1, 1, 1) of a 2×2×2 lattice, yields cell value 3. -/
theorem C6_saturating_injection_witness :
    (add_energy_quantum (vacuumState 2 2 2) 1 1 1 10).map
      (fun s2 => s2.energy_buffer_a
        (encodePos ((1 : Fin 2), (1 : Fin 2), (1 : Fin 2)))) = some 3 := by
  obtain ⟨s2, hsome, hval, -, -, -, -, -⟩ :=
    C6_saturating_injection.1 2 2 2 (vacuumState 2 2 2) 1 1 1 10
      (by norm_num) (by norm_num) (by norm_num) (by norm_num [U32])
  rw [hsome, Option.map_some']
  exact congrArg some (hval.trans (by decide))

/-- C7 counterexample: on a readback-mapping failure the caller of
`get_total_energy` does not receive a failure result (the only candidate
error value is `mappingFailed`); the call panics instead. -/
theorem C7_mapping_failure_counterexample :
    ¬ get_total_energy (vacuumState 1 1 1) (Except.error MapError.mappingFailed)
      = TotalResult.errorReturn MapError.mappingFailed := by decide

/-- C7 amended: when the staging map fails, `get_total_energy` panics (the
nested unwrap), never returning a spurious sum; it never returns an error
value at all — its return type is a bare u32, and only a successful map
yields the (correct, u32-wrapped) sum of the active buffer. -/
theorem C7_mapping_failure_amended (W H D : Nat) (s : DiscreteLatticeGPU W H D)
    (e : MapError) :
    get_total_energy s (Except.error e) = TotalResult.crashed ∧
    get_total_energy s (Except.ok ()) = TotalResult.ok (totalEnergy s % U32) :=
  ⟨rfl, rfl⟩

/-- C8 counterexample: a 2048×2048×2048 request needs
`2048·2048·2048·4 = 2^35` bytes, far above a 2^31 single-buffer limit, yet
construction succeeds: the u32 product `W·H·D` wraps to 0 (lib.rs line 71),
so a zero-byte buffer is requested and no device limit is exceeded. -/
theorem C8_oversize_counterexample :
    2048 * 2048 * 2048 * 4 > 2 ^ 31 ∧
    (new 2048 2048 2048 ⟨2 ^ 31⟩).isSome = true := by decide

/-- C8 amended: construction fails exactly when the u32-wrapped product
`(W·H·D mod 2^32)·4` exceeds the device's single-buffer limit; whenever
`W·H·D < 2^32` (no overflow) this is exactly the claimed condition
`W·H·D·4 > limit`, and a successful construction starts with both buffers
zeroed and a zero step counter. -/
theorem C8_oversize_amended (W H D : Nat) (lim : DeviceLimits) :
    (new W H D lim = none ↔
      ((W * H * D) % U32) * 4 > lim.maxStorageBufferBindingSize) ∧
    (W * H * D < U32 →
      (new W H D lim = none ↔ W * H * D * 4 > lim.maxStorageBufferBindingSize)) ∧
    ∀ s0, new W H D lim = some s0 →
      s0.step_count = 0 ∧ ∀ i, s0.energy_buffer_a i = 0 ∧ s0.energy_buffer_b i = 0 := by
  unfold new
  by_cases hc : ((W * H * D) % U32) * 4 > lim.maxStorageBufferBindingSize
  · rw [if_pos hc]
    refine ⟨⟨fun _ => hc, fun _ => rfl⟩, fun hU => ⟨fun _ => ?_, fun _ => rfl⟩, ?_⟩
    · rwa [Nat.mod_eq_of_lt hU] at hc
    · intro s0 h0
      exact absurd h0 (by simp)
  · rw [if_neg hc]
    refine ⟨⟨fun h0 => by simp at h0, fun hgt => absurd hgt hc⟩,
      fun hU => ⟨fun h0 => by simp at h0,
        fun hgt => absurd (by rwa [Nat.mod_eq_of_lt hU]) hc⟩, ?_⟩
    intro s0 h0
    have h1 : vacuumState W H D = s0 := by injection h0
    subst h1
    exact ⟨rfl, fun i => ⟨rfl, rfl⟩⟩

/-- C8 amended, witness: a 1024³ lattice (no u32 overflow) needs 2^32 bytes
and is rejected by a device with a 2^31-byte limit. -/
theorem C8_oversize_amended_witness :
    new 1024 1024 1024 ⟨2 ^ 31⟩ = none :=
  ((C8_oversize_amended 1024 1024 1024 ⟨2 ^ 31⟩).2.1
    (by norm_num [U32])).mpr (by norm_num)

/-- C9: per step the (input, output) designation is selected by
`step_count mod 2` (even: A is input and B is output; odd: swapped), the two
designated buffers are never the same, `propagate_energy` writes the
designated output from the designated input and increments the u32 step
counter by exactly 1, and `get_energy_buffer` returns A on an even
completed-step count and B on an odd one. -/
theorem C9_pingpong_selection (W H D : Nat) (h : HashFn)
    (s : DiscreteLatticeGPU W H D) :
    (s.step_count % 2 = 0 → stepBuffers s.step_count = (BufId.A, BufId.B) ∧
      get_energy_buffer s = BufId.A) ∧
    (s.step_count % 2 ≠ 0 → stepBuffers s.step_count = (BufId.B, BufId.A) ∧
      get_energy_buffer s = BufId.B) ∧
    (stepBuffers s.step_count).1 ≠ (stepBuffers s.step_count).2 ∧
    (propagate_energy h s).step_count = (s.step_count + 1) % U32 ∧
    readBuf (propagate_energy h s) (stepBuffers s.step_count).1
      = readBuf s (stepBuffers s.step_count).1 ∧
    readBuf (propagate_energy h s) (stepBuffers s.step_count).2
      = kstep (fun p => h p.1.val p.2.1.val p.2.2.val s.step_count)
          (readBuf s (stepBuffers s.step_count).1) := by
  by_cases hpar : s.step_count % 2 = 0
  · simp [stepBuffers, get_energy_buffer, propagate_energy, readBuf, writeBuf, hpar]
  · simp [stepBuffers, get_energy_buffer, propagate_energy, readBuf, writeBuf, hpar]

/-- C9 witness: the fresh state has an even count, so A is input, B output,
and one propagation sets the counter to 1. -/
theorem C9_pingpong_selection_witness :
    stepBuffers (vacuumState 1 1 1).step_count = (BufId.A, BufId.B) ∧
    get_energy_buffer (vacuumState 1 1 1) = BufId.A ∧
    (propagate_energy hConst (vacuumState 1 1 1)).step_count = (0 + 1) % U32 := by
  have h9 := C9_pingpong_selection 1 1 1 hConst (vacuumState 1 1 1)
  exact ⟨(h9.1 rfl).1, (h9.1 rfl).2, h9.2.2.2.1⟩

/-- C10: after `initialize_vacuum` every site of both energy buffers holds 0,
so a subsequent `get_total_energy` returns 0 whatever the prior field
contents and whatever the step parity. -/
theorem C10_initialize_vacuum_zeroes (W H D : Nat)
    (s : DiscreteLatticeGPU W H D) :
    (∀ i, (initialize_vacuum s).energy_buffer_a i = 0 ∧
      (initialize_vacuum s).energy_buffer_b i = 0) ∧
    get_total_energy (initialize_vacuum s) (Except.ok ())
      = TotalResult.ok 0 := by
  refine ⟨fun i => ⟨rfl, rfl⟩, ?_⟩
  simp only [get_total_energy, totalEnergy, initialize_vacuum, ite_self]
  simp [U32]
